import Mathlib

/-
Verification of the shamrock-seats repository core logic.

The definitions below are shallow embeddings of the Python source:
  - `workQueue`, `mkBatches`, `startReservationBatches` embed the batch
    construction of `start_reservation` (shamrock_seats_bot.py lines 402-424,
    bot/bot.py lines 404-426);
  - `divideSeatsEvenly` embeds `divide_seats_evenly` (shamrock_seats_bot.py
    lines 204-227);
  - `reserveSeatsSeatCheck` embeds the seat-availability check and the
    SeatSelectionError payload of `Ryanair.reserve_seats` (ryanair.py 519-527);
  - `selectLRU`, `stamp`, `removeKey`, `getProxy` embed `Proxy.get`
    (bot/proxy.py 125-143); `refreshStore` embeds `Proxy.refresh`
    (bot/proxy.py 76-104);
  - `retryLoop`, `retryRun` embed the `retry_async` decorator
    (shamrock_seats_bot.py 52-81); `openDriverAndReserveTrace` embeds the
    decorated `open_driver_and_reserve` (lines 84-108);
  - `findMaxTickets`, `getNumberOfTicketsAvailable`, `startReservationRun`
    embed `Ryanair.__find_max_tickets_available` (ryanair.py 220-237),
    `Ryanair.get_number_of_tickets_available` (ryanair.py 473-487) and the
    control flow of `start_reservation`.

Machine reals (time.time float timestamps, sleep delays) are modelled as Nat:
only their ordering and arithmetic relations matter to the claims.
-/

/-- Ceiling division on Nat, the meaning of Python math.ceil(n / q) for
natural n and positive q (the float division is exact at these magnitudes). -/
def ceilDiv (n q : Nat) : Nat := (n + q - 1) / q

theorem ceilDiv_mul_ge (n q : Nat) (hq : 0 < q) : n ≤ ceilDiv n q * q := by
  unfold ceilDiv
  rw [Nat.mul_comm]
  have hdm := Nat.div_add_mod (n + q - 1) q
  have hlt : (n + q - 1) % q < q := Nat.mod_lt _ hq
  omega

theorem ceilDiv_mul_lt (n q : Nat) (hq : 0 < q) : ceilDiv n q * q < n + q := by
  unfold ceilDiv
  have h := Nat.div_mul_le_self (n + q - 1) q
  omega

/-- Work queue of `start_reservation`: `seats_remaining = available_seats.copy()`
followed by `seats_remaining.remove(seat)` for each caller-selected seat
(removal of the first occurrence). -/
def workQueue (available selected : List String) : List String :=
  selected.foldl (fun acc s => acc.erase s) available

/-- One iteration of the `for i in range(drivers_needed)` loop of
`start_reservation`: `num = available_tickets if len(rem) >= available_tickets
else len(rem)`, the batch is `rem[:num]` and the remainder `rem[num:]`. -/
def mkBatches : Nat → List String → Nat → List (List String)
  | 0, _, _ => []
  | n + 1, rem, q =>
      let num := if q ≤ rem.length then q else rem.length
      rem.take num :: mkBatches n (rem.drop num) q

/-- Batch list built by `start_reservation`: `drivers_needed =
math.ceil(len(seats_remaining) / available_tickets)` loop iterations. -/
def startReservationBatches (w : List String) (q : Nat) : List (List String) :=
  mkBatches (ceilDiv w.length q) w q

theorem mkBatches_succ (n : Nat) (rem : List String) (q : Nat) :
    mkBatches (n + 1) rem q = rem.take q :: mkBatches n (rem.drop q) q := by
  by_cases h : q ≤ rem.length
  · conv_lhs => rw [mkBatches]
    simp only [if_pos h]
  · push_neg at h
    have hle := Nat.le_of_lt h
    conv_lhs => rw [mkBatches]
    simp only [if_neg (Nat.not_le_of_lt h)]
    rw [List.take_length, List.take_of_length_le hle,
      List.drop_length, List.drop_eq_nil_of_le hle]

theorem mkBatches_length (n : Nat) (rem : List String) (q : Nat) :
    (mkBatches n rem q).length = n := by
  induction n generalizing rem with
  | zero => rfl
  | succ k ih => rw [mkBatches_succ]; simp [ih]

theorem mkBatches_join (n : Nat) (rem : List String) (q : Nat)
    (h : rem.length ≤ n * q) : (mkBatches n rem q).flatten = rem := by
  induction n generalizing rem with
  | zero =>
      have : rem = [] := List.eq_nil_of_length_eq_zero (by omega)
      simp [mkBatches, this]
  | succ k ih =>
      rw [mkBatches_succ]
      have hdroplen : (rem.drop q).length = rem.length - q := List.length_drop q rem
      have : (rem.drop q).length ≤ k * q := by
        rw [hdroplen]
        have : (k + 1) * q = k * q + q := by ring
        omega
      simp only [List.flatten_cons, ih (rem.drop q) this]
      exact List.take_append_drop q rem

theorem mkBatches_sizes (n : Nat) (rem : List String) (q : Nat) :
    ∀ b ∈ mkBatches n rem q, b.length ≤ q := by
  induction n generalizing rem with
  | zero => intro b hb; simp [mkBatches] at hb
  | succ k ih =>
      intro b hb
      rw [mkBatches_succ] at hb
      rcases List.mem_cons.mp hb with h | h
      · subst h
        calc (rem.take q).length = min q rem.length := List.length_take q rem
          _ ≤ q := Nat.min_le_left _ _
      · exact ih (rem.drop q) b h

theorem mkBatches_getElem (n : Nat) (rem : List String) (q : Nat) :
    ∀ i, i < n → (mkBatches n rem q)[i]? = some ((rem.drop (i * q)).take q) := by
  induction n generalizing rem with
  | zero => intro i hi; omega
  | succ k ih =>
      intro i hi
      rw [mkBatches_succ]
      cases i with
      | zero => simp
      | succ j =>
          have hj : j < k := Nat.lt_of_succ_lt_succ hi
          have := ih (rem.drop q) j hj
          simp only [List.getElem?_cons_succ, this, List.drop_drop]
          have harith : q + j * q = (j + 1) * q := by ring
          rw [harith]

/-- Claim C1: for every non-empty work queue W and quota Q > 0, the batch
construction of `start_reservation` yields exactly ceil(len W / Q) batches,
whose concatenation is W (so their union is W and they are pairwise disjoint
for distinct seat ids), each of size at most Q, with batch i being the seats
of W from position i*Q on (the next at-most-Q seats in sequence, strictly
preceding batch i+1). -/
theorem start_reservation_batch_partition (w : List String) (q : Nat)
    (hw : w ≠ []) (hq : 0 < q) :
    (startReservationBatches w q).length = ceilDiv w.length q
    ∧ (startReservationBatches w q).flatten = w
    ∧ (∀ b ∈ startReservationBatches w q, b.length ≤ q)
    ∧ (w.Nodup →
        (startReservationBatches w q).Pairwise (fun b1 b2 => ∀ x ∈ b1, x ∉ b2))
    ∧ (∀ i, i < (startReservationBatches w q).length →
        (startReservationBatches w q)[i]? = some ((w.drop (i * q)).take q)) := by
  have hflat : (startReservationBatches w q).flatten = w :=
    mkBatches_join _ w q (ceilDiv_mul_ge w.length q hq)
  refine ⟨mkBatches_length _ _ _, hflat, mkBatches_sizes _ _ _, ?_, ?_⟩
  · intro hnd
    have hfn : (startReservationBatches w q).flatten.Nodup := by
      rw [hflat]; exact hnd
    have hpw := (List.nodup_flatten.mp hfn).2
    exact hpw.imp (fun hd => fun x hx hx2 => hd hx hx2)
  · intro i hi
    unfold startReservationBatches at hi ⊢
    rw [mkBatches_length] at hi
    exact mkBatches_getElem _ w q i hi

/-- Witness for C1 at W = [01A, 01B, 02A], Q = 2: two batches
[[01A, 01B], [02A]], as in the spec's worked example. -/
theorem start_reservation_batch_partition_witness :
    startReservationBatches ["01A", "01B", "02A"] 2 = [["01A", "01B"], ["02A"]]
    ∧ ((startReservationBatches ["01A", "01B", "02A"] 2).length
          = ceilDiv (["01A", "01B", "02A"] : List String).length 2
      ∧ (startReservationBatches ["01A", "01B", "02A"] 2).flatten
          = ["01A", "01B", "02A"]
      ∧ (∀ b ∈ startReservationBatches ["01A", "01B", "02A"] 2, b.length ≤ 2)
      ∧ ((["01A", "01B", "02A"] : List String).Nodup →
          (startReservationBatches ["01A", "01B", "02A"] 2).Pairwise
            (fun b1 b2 => ∀ x ∈ b1, x ∉ b2))
      ∧ (∀ i, i < (startReservationBatches ["01A", "01B", "02A"] 2).length →
          (startReservationBatches ["01A", "01B", "02A"] 2)[i]?
            = some (((["01A", "01B", "02A"] : List String).drop (i * 2)).take 2))) :=
  ⟨by decide,
    start_reservation_batch_partition ["01A", "01B", "02A"] 2 (by decide) (by decide)⟩

/-- One `seats_per_row[idx] -= 1` step of `divide_seats_evenly`: decrement the
entry at a given index (no change when the index is out of range). -/
def decAt : List Nat → Nat → List Nat
  | [], _ => []
  | x :: xs, 0 => (x - 1) :: xs
  | x :: xs, i + 1 => x :: decAt xs i

/-- The adjustment loop of `divide_seats_evenly`:
`for i in range(excess): seats_per_row[-(i+1)] -= 1`, where the negative index
-(i+1) is position `len - 1 - i` and the length is constant. -/
def adjustSizes (sizes : List Nat) : Nat → List Nat
  | 0 => sizes
  | k + 1 => decAt (adjustSizes sizes k) (sizes.length - 1 - k)

/-- The slicing loop of `divide_seats_evenly`: for each count, the row is
`seats[start : start + count]` and the start index advances by count. -/
def splitSizes : List String → List Nat → List (List String)
  | _, [] => []
  | s, c :: cs => s.take c :: splitSizes (s.drop c) cs

/-- `divide_seats_evenly(seats, max_rows)`: rows = min(max_rows, len(seats)),
seats_per_row = [ceil(len/rows)] * rows adjusted down by the excess, then the
seats list is sliced into rows of those sizes. -/
def divideSeatsEvenly (seats : List String) (maxRows : Nat) : List (List String) :=
  let numSeats := seats.length
  let rows := min maxRows numSeats
  let per := ceilDiv numSeats rows
  let excess := per * rows - numSeats
  splitSizes seats (adjustSizes (List.replicate rows per) excess)

theorem decAt_length (sizes : List Nat) (i : Nat) :
    (decAt sizes i).length = sizes.length := by
  induction sizes generalizing i with
  | nil => rfl
  | cons x xs ih =>
      cases i with
      | zero => rfl
      | succ j => simpa [decAt] using ih j

theorem decAt_replicate_append (a : Nat) (x : Nat) (ys : List Nat) :
    decAt (List.replicate (a + 1) x ++ ys) a
      = List.replicate a x ++ (x - 1) :: ys := by
  induction a with
  | zero => rfl
  | succ b ih =>
      rw [List.replicate_succ, List.cons_append]
      simp only [decAt, ih]
      rw [List.replicate_succ, List.cons_append]

theorem adjustSizes_replicate (per r e : Nat) (he : e ≤ r) :
    adjustSizes (List.replicate r per) e
      = List.replicate (r - e) per ++ List.replicate e (per - 1) := by
  induction e with
  | zero => simp [adjustSizes]
  | succ k ih =>
      have hk : k ≤ r := Nat.le_of_succ_le he
      have hlen : (List.replicate r per).length = r := List.length_replicate r per
      have hsplit : r - k = (r - (k + 1)) + 1 := by omega
      unfold adjustSizes
      rw [ih hk, hlen, hsplit]
      have : decAt (List.replicate (r - (k + 1) + 1) per ++ List.replicate k (per - 1))
          (r - 1 - k) = List.replicate (r - (k + 1)) per
            ++ (per - 1) :: List.replicate k (per - 1) := by
        have hi2 : r - 1 - k = r - (k + 1) := by omega
        rw [hi2]
        exact decAt_replicate_append (r - (k + 1)) per (List.replicate k (per - 1))
      rw [this, List.replicate_succ]

theorem splitSizes_length (s : List String) (cs : List Nat) :
    (splitSizes s cs).length = cs.length := by
  induction cs generalizing s with
  | nil => rfl
  | cons c cs ih => simp [splitSizes, ih]

theorem splitSizes_map_length (s : List String) (cs : List Nat)
    (h : cs.sum ≤ s.length) :
    (splitSizes s cs).map List.length = cs := by
  induction cs generalizing s with
  | nil => rfl
  | cons c cs ih =>
      have hc : c ≤ s.length := by
        have := List.sum_cons (a := c) (l := cs)
        omega
      have hrest : cs.sum ≤ (s.drop c).length := by
        rw [List.length_drop]
        have := List.sum_cons (a := c) (l := cs)
        omega
      simp only [splitSizes, List.map_cons, ih (s.drop c) hrest]
      rw [List.length_take, Nat.min_eq_left hc]

theorem splitSizes_flatten (s : List String) (cs : List Nat)
    (h : cs.sum = s.length) :
    (splitSizes s cs).flatten = s := by
  induction cs generalizing s with
  | nil =>
      simp only [splitSizes, List.flatten_nil]
      exact (List.eq_nil_of_length_eq_zero (by simp at h; omega)).symm
  | cons c cs ih =>
      have hrest : cs.sum = (s.drop c).length := by
        rw [List.length_drop]
        have := List.sum_cons (a := c) (l := cs)
        omega
      simp only [splitSizes, List.flatten_cons, ih (s.drop c) hrest]
      exact List.take_append_drop c s

theorem splitEven_props (s : List String) (rows per excess : Nat)
    (hper1 : 1 ≤ per)
    (hper2 : 0 < excess → 2 ≤ per)
    (hsum : (rows - excess) * per + excess * (per - 1) = s.length) :
    (splitSizes s
        (List.replicate (rows - excess) per ++ List.replicate excess (per - 1))).length
      = (rows - excess) + excess
    ∧ (splitSizes s
        (List.replicate (rows - excess) per
          ++ List.replicate excess (per - 1))).flatten = s
    ∧ (∀ row ∈ splitSizes s
        (List.replicate (rows - excess) per ++ List.replicate excess (per - 1)),
        row ≠ [])
    ∧ (∀ r1 ∈ splitSizes s
        (List.replicate (rows - excess) per ++ List.replicate excess (per - 1)),
       ∀ r2 ∈ splitSizes s
        (List.replicate (rows - excess) per ++ List.replicate excess (per - 1)),
        r1.length ≤ r2.length + 1) := by
  have hcssum : (List.replicate (rows - excess) per
      ++ List.replicate excess (per - 1)).sum = s.length := by
    rw [List.sum_append, List.sum_replicate, List.sum_replicate,
      smul_eq_mul, smul_eq_mul]
    exact hsum
  have hmap : (splitSizes s
      (List.replicate (rows - excess) per
        ++ List.replicate excess (per - 1))).map List.length
      = List.replicate (rows - excess) per ++ List.replicate excess (per - 1) :=
    splitSizes_map_length s _ (le_of_eq hcssum)
  have hval : ∀ c ∈ List.replicate (rows - excess) per
      ++ List.replicate excess (per - 1), 1 ≤ c ∧ per - 1 ≤ c ∧ c ≤ per := by
    intro c hc
    rcases List.mem_append.mp hc with h | h
    · have hc2 := List.eq_of_mem_replicate h
      subst hc2
      exact ⟨hper1, Nat.sub_le _ _, le_refl _⟩
    · have hc2 := List.eq_of_mem_replicate h
      have hex : 0 < excess := by
        cases excess with
        | zero => simp at h
        | succ e => exact Nat.succ_pos e
      have h2 := hper2 hex
      subst hc2
      exact ⟨by omega, le_refl _, Nat.sub_le _ _⟩
  have hrowlen : ∀ row ∈ splitSizes s
      (List.replicate (rows - excess) per ++ List.replicate excess (per - 1)),
      1 ≤ row.length ∧ per - 1 ≤ row.length ∧ row.length ≤ per := by
    intro row hrow
    have hmem : row.length ∈ List.replicate (rows - excess) per
        ++ List.replicate excess (per - 1) := by
      rw [← hmap]
      exact List.mem_map_of_mem List.length hrow
    exact hval _ hmem
  refine ⟨?_, splitSizes_flatten s _ hcssum, ?_, ?_⟩
  · rw [splitSizes_length, List.length_append,
      List.length_replicate, List.length_replicate]
  · intro row hrow
    exact List.ne_nil_of_length_pos (hrowlen row hrow).1
  · intro r1 h1 r2 h2
    have hb1 := hrowlen r1 h1
    have hb2 := hrowlen r2 h2
    omega

/-- Claim C10: for non-empty seats S and max_rows m >= 1,
`divide_seats_evenly(S, m)` returns min(m, len S) rows whose in-order
concatenation is exactly S, every row non-empty, and any two row lengths
differing by at most one. -/
theorem divide_seats_evenly_even_partition (seats : List String) (m : Nat)
    (hs : seats ≠ []) (hm : 1 ≤ m) :
    (divideSeatsEvenly seats m).length = min m seats.length
    ∧ (divideSeatsEvenly seats m).flatten = seats
    ∧ (∀ row ∈ divideSeatsEvenly seats m, row ≠ [])
    ∧ (∀ r1 ∈ divideSeatsEvenly seats m, ∀ r2 ∈ divideSeatsEvenly seats m,
        r1.length ≤ r2.length + 1) := by
  have hn : 1 ≤ seats.length := List.length_pos.mpr hs
  have hrows_pos : 0 < min m seats.length := by omega
  have hrows_le : min m seats.length ≤ seats.length := Nat.min_le_right _ _
  have h_lower : seats.length
      ≤ ceilDiv seats.length (min m seats.length) * min m seats.length :=
    ceilDiv_mul_ge _ _ hrows_pos
  have h_upper : ceilDiv seats.length (min m seats.length) * min m seats.length
      < seats.length + min m seats.length :=
    ceilDiv_mul_lt _ _ hrows_pos
  have hexle : ceilDiv seats.length (min m seats.length) * min m seats.length
      - seats.length ≤ min m seats.length := by omega
  have hper1 : 1 ≤ ceilDiv seats.length (min m seats.length) := by
    rcases Nat.eq_zero_or_pos (ceilDiv seats.length (min m seats.length)) with h0 | h1
    · rw [h0, Nat.zero_mul] at h_lower
      omega
    · exact h1
  have hper2 : 0 < ceilDiv seats.length (min m seats.length) * min m seats.length
      - seats.length → 2 ≤ ceilDiv seats.length (min m seats.length) := by
    intro hex
    have h3 : 1 * min m seats.length
        < ceilDiv seats.length (min m seats.length) * min m seats.length := by
      rw [Nat.one_mul]
      omega
    exact Nat.lt_of_mul_lt_mul_right h3
  have hpm : ceilDiv seats.length (min m seats.length) - 1 + 1
      = ceilDiv seats.length (min m seats.length) := by omega
  have hre : min m seats.length
      - (ceilDiv seats.length (min m seats.length) * min m seats.length
          - seats.length)
      + (ceilDiv seats.length (min m seats.length) * min m seats.length
          - seats.length) = min m seats.length := by omega
  have hcalc : (min m seats.length
        - (ceilDiv seats.length (min m seats.length) * min m seats.length
            - seats.length)) * ceilDiv seats.length (min m seats.length)
      + (ceilDiv seats.length (min m seats.length) * min m seats.length
          - seats.length) * (ceilDiv seats.length (min m seats.length) - 1)
      + (ceilDiv seats.length (min m seats.length) * min m seats.length
          - seats.length)
      = min m seats.length * ceilDiv seats.length (min m seats.length) := by
    calc (min m seats.length
          - (ceilDiv seats.length (min m seats.length) * min m seats.length
              - seats.length)) * ceilDiv seats.length (min m seats.length)
        + (ceilDiv seats.length (min m seats.length) * min m seats.length
            - seats.length) * (ceilDiv seats.length (min m seats.length) - 1)
        + (ceilDiv seats.length (min m seats.length) * min m seats.length
            - seats.length)
        = (min m seats.length
            - (ceilDiv seats.length (min m seats.length) * min m seats.length
                - seats.length)) * ceilDiv seats.length (min m seats.length)
          + (ceilDiv seats.length (min m seats.length) * min m seats.length
              - seats.length)
            * ((ceilDiv seats.length (min m seats.length) - 1) + 1) := by ring
      _ = (min m seats.length
            - (ceilDiv seats.length (min m seats.length) * min m seats.length
                - seats.length)) * ceilDiv seats.length (min m seats.length)
          + (ceilDiv seats.length (min m seats.length) * min m seats.length
              - seats.length) * ceilDiv seats.length (min m seats.length) := by
            rw [hpm]
      _ = (min m seats.length
            - (ceilDiv seats.length (min m seats.length) * min m seats.length
                - seats.length)
            + (ceilDiv seats.length (min m seats.length) * min m seats.length
                - seats.length)) * ceilDiv seats.length (min m seats.length) := by
            ring
      _ = min m seats.length * ceilDiv seats.length (min m seats.length) := by
            rw [hre]
  have hcomm : min m seats.length * ceilDiv seats.length (min m seats.length)
      = ceilDiv seats.length (min m seats.length) * min m seats.length :=
    Nat.mul_comm _ _
  have hsum : (min m seats.length
        - (ceilDiv seats.length (min m seats.length) * min m seats.length
            - seats.length)) * ceilDiv seats.length (min m seats.length)
      + (ceilDiv seats.length (min m seats.length) * min m seats.length
          - seats.length) * (ceilDiv seats.length (min m seats.length) - 1)
      = seats.length := by omega
  have hD : divideSeatsEvenly seats m
      = splitSizes seats
          (adjustSizes
            (List.replicate (min m seats.length)
              (ceilDiv seats.length (min m seats.length)))
            (ceilDiv seats.length (min m seats.length) * min m seats.length
              - seats.length)) := rfl
  rw [hD, adjustSizes_replicate _ _ _ hexle]
  have hprops := splitEven_props seats (min m seats.length)
    (ceilDiv seats.length (min m seats.length))
    (ceilDiv seats.length (min m seats.length) * min m seats.length
      - seats.length) hper1 hper2 hsum
  refine ⟨?_, hprops.2.1, hprops.2.2.1, hprops.2.2.2⟩
  rw [hprops.1]
  omega

/-- Witness for C10 at S = [1A, 1B, 1C, 1D, 1E], m = 4: five seats split into
four rows [[1A, 1B], [1C], [1D], [1E]]. -/
theorem divide_seats_evenly_even_partition_witness :
    divideSeatsEvenly ["1A", "1B", "1C", "1D", "1E"] 4
      = [["1A", "1B"], ["1C"], ["1D"], ["1E"]]
    ∧ ((divideSeatsEvenly ["1A", "1B", "1C", "1D", "1E"] 4).length
        = min 4 (["1A", "1B", "1C", "1D", "1E"] : List String).length
      ∧ (divideSeatsEvenly ["1A", "1B", "1C", "1D", "1E"] 4).flatten
        = ["1A", "1B", "1C", "1D", "1E"]
      ∧ (∀ row ∈ divideSeatsEvenly ["1A", "1B", "1C", "1D", "1E"] 4, row ≠ [])
      ∧ (∀ r1 ∈ divideSeatsEvenly ["1A", "1B", "1C", "1D", "1E"] 4,
         ∀ r2 ∈ divideSeatsEvenly ["1A", "1B", "1C", "1D", "1E"] 4,
          r1.length ≤ r2.length + 1)) :=
  ⟨by decide,
    divide_seats_evenly_even_partition ["1A", "1B", "1C", "1D", "1E"] 4
      (by decide) (by decide)⟩

/-- The availability check of `Ryanair.reserve_seats` (ryanair.py 519-527):
when `not all(elem in available_seats for elem in seats)` the function raises
`SeatSelectionError([elem for elem in available_seats if elem not in seats])`;
`some payload` models the raised error and its payload, `none` means the check
passes and seat selection proceeds. -/
def reserveSeatsSeatCheck (seats available : List String) : Option (List String) :=
  if seats.all (fun s => available.contains s) then none
  else some (available.filter (fun e => !(seats.contains e)))

/-- Claim C2 (code bug): the SeatSelectionError payload is NOT the subset of
the requested seats that are unavailable. At requested seats = [01A] with
scraped available seats = [02B], an error is raised (01A is unavailable) but
its payload is [02B] — the available seats that were not requested (A \ S) —
instead of the claimed [01A] (S \ A). With available = [] the error even
carries an empty payload. The comprehension's two lists are swapped relative
to the guard it sits under. -/
theorem reserve_seats_payload_swapped :
    reserveSeatsSeatCheck ["01A"] ["02B"] = some ["02B"]
    ∧ (["01A"] : List String).filter (fun s => !(List.contains ["02B"] s)) = ["01A"]
    ∧ (["02B"] : List String) ≠ ["01A"]
    ∧ reserveSeatsSeatCheck ["01A"] [] = some [] := by
  refine ⟨by decide, by decide, by decide, by decide⟩

/-- Least-recently-used selection of `Proxy.get`:
`min(proxy_store, key=proxy_store.get)` — the first entry (in insertion
order) whose timestamp is minimal. The store is an association list in
dict insertion order; timestamps are Nat (0 = never used). -/
def selectLRU : List (String × Nat) → Option (String × Nat)
  | [] => none
  | p :: rest =>
      match selectLRU rest with
      | none => some p
      | some q => if q.2 < p.2 then some q else some p

/-- `proxy_store[proxy] = time.time()`: stamp the entry with the current time. -/
def stamp (store : List (String × Nat)) (a : String) (now : Nat) :
    List (String × Nat) :=
  store.map (fun p => if p.1 = a then (a, now) else p)

/-- `del proxy_store[proxy]`: remove the entry. -/
def removeKey (store : List (String × Nat)) (a : String) : List (String × Nat) :=
  store.filter (fun p => p.1 ≠ a)

/-- Result of `Proxy.get`: either a reachable proxy is returned together with
the updated store, or the while loop ends with the (emptied) store and the
function falls through, returning Python None — there is no raise anywhere
in `get`. -/
inductive GetResult
  | found : String → List (String × Nat) → GetResult
  | fellThrough : List (String × Nat) → GetResult
  deriving DecidableEq

/-- The `while len(proxy_store) > 0` loop of `Proxy.get` (bot/proxy.py
132-142): pick the least-recently-used proxy, stamp it with the current time,
probe reachability; return it on success, otherwise delete it and loop.
Fuel bounds the iterations; each failing iteration removes one entry, so
`store.length` fuel always suffices. -/
def getProxyLoop (reachable : String → Bool) (now : Nat) :
    Nat → List (String × Nat) → GetResult
  | 0, store => GetResult.fellThrough store
  | fuel + 1, store =>
      match selectLRU store with
      | none => GetResult.fellThrough store
      | some (a, _) =>
          let stamped := stamp store a now
          if reachable a then GetResult.found a stamped
          else getProxyLoop reachable now fuel (removeKey stamped a)

/-- `Proxy.get` on a store (the initial refresh-when-empty is a no-op for the
non-empty pools the claims quantify over). -/
def getProxy (reachable : String → Bool) (now : Nat)
    (store : List (String × Nat)) : GetResult :=
  getProxyLoop reachable now store.length store


theorem selectLRU_mem (store : List (String × Nat)) (p : String × Nat)
    (h : selectLRU store = some p) : p ∈ store := by
  induction store with
  | nil => simp [selectLRU] at h
  | cons x rest ih =>
      unfold selectLRU at h
      cases hr : selectLRU rest with
      | none =>
          rw [hr] at h
          simp at h
          simp [h]
      | some q =>
          rw [hr] at h
          by_cases hlt : q.2 < x.2
          · simp [hlt] at h
            exact List.mem_cons_of_mem x (ih (by rw [hr, h]))
          · simp [hlt] at h
            simp [h]

theorem selectLRU_eq_none (store : List (String × Nat))
    (h : selectLRU store = none) : store = [] := by
  cases store with
  | nil => rfl
  | cons y ys =>
      exfalso
      unfold selectLRU at h
      cases h2 : selectLRU ys with
      | none => rw [h2] at h; exact Option.noConfusion h
      | some z =>
          rw [h2] at h
          by_cases h3 : z.2 < y.2
          · simp [h3] at h
          · simp [h3] at h

theorem selectLRU_min (store : List (String × Nat)) :
    ∀ p, selectLRU store = some p → ∀ q ∈ store, p.2 ≤ q.2 := by
  induction store with
  | nil => intro p h; simp [selectLRU] at h
  | cons x rest ih =>
      intro p h q hq
      unfold selectLRU at h
      cases hr : selectLRU rest with
      | none =>
          rw [hr] at h
          simp at h
          have hrest := selectLRU_eq_none rest hr
          subst hrest
          rcases List.mem_cons.mp hq with h4 | h4
          · rw [← h, h4]
          · simp at h4
      | some z =>
          rw [hr] at h
          by_cases h3 : z.2 < x.2
          · simp [h3] at h
            subst h
            rcases List.mem_cons.mp hq with h4 | h4
            · subst h4; exact Nat.le_of_lt h3
            · exact ih _ hr q h4
          · simp [h3] at h
            subst h
            rcases List.mem_cons.mp hq with h4 | h4
            · subst h4; exact le_refl _
            · have h5 := ih z hr q h4
              have h6 : x.2 ≤ z.2 := Nat.le_of_not_lt h3
              omega

/-- Claim C3: on a non-empty pool, `Proxy.get` selects the tracked address
with the smallest lastUsedAt (selectLRU picks the minimum, first-in-insertion-
order on ties, so a never-used address with timestamp 0 ranks ahead of all
used ones), stamps it with the current time before the reachability probe,
and returns it when the probe passes — the returned store carries the stamp. -/
theorem proxy_get_selects_lru (reachable : String → Bool) (now : Nat)
    (store : List (String × Nat)) (a : String) (t : Nat)
    (hne : store ≠ []) (hsel : selectLRU store = some (a, t))
    (hre : reachable a = true) :
    (a, t) ∈ store
    ∧ (∀ q ∈ store, t ≤ q.2)
    ∧ getProxy reachable now store = GetResult.found a (stamp store a now) := by
  refine ⟨selectLRU_mem store (a, t) hsel,
    selectLRU_min store (a, t) hsel, ?_⟩
  cases store with
  | nil => exact absurd rfl hne
  | cons x rest =>
      show getProxyLoop reachable now (rest.length + 1) (x :: rest) = _
      unfold getProxyLoop
      rw [hsel]
      simp [hre]

/-- Witness for C3: the spec's example — pool holds A never used (timestamp 0)
and B used at time 5, A is reachable, `get` at time 7 returns A with its
timestamp stamped to 7 before the probe. -/
theorem proxy_get_selects_lru_witness :
    getProxy (fun _ => true) 7 [("A", 0), ("B", 5)]
      = GetResult.found "A" [("A", 7), ("B", 5)]
    ∧ (("A", 0) ∈ ([("A", 0), ("B", 5)] : List (String × Nat))
      ∧ (∀ q ∈ ([("A", 0), ("B", 5)] : List (String × Nat)), 0 ≤ q.2)
      ∧ getProxy (fun _ => true) 7 [("A", 0), ("B", 5)]
          = GetResult.found "A" (stamp [("A", 0), ("B", 5)] "A" 7)) :=
  ⟨by decide,
    proxy_get_selects_lru (fun _ => true) 7 [("A", 0), ("B", 5)] "A" 0
      (by decide) (by decide) rfl⟩

theorem length_filter_lt_of_mem_false (l : List (String × Nat))
    (x : String × Nat) (pred : String × Nat → Bool)
    (hx : x ∈ l) (hpx : pred x = false) :
    (l.filter pred).length < l.length := by
  induction l with
  | nil => simp at hx
  | cons y ys ih =>
      rw [List.filter_cons]
      by_cases hy : pred y = true
      · rw [if_pos hy]
        simp only [List.length_cons]
        rcases List.mem_cons.mp hx with h | h
        · subst h
          rw [hpx] at hy
          exact absurd hy (by simp)
        · exact Nat.succ_lt_succ (ih h)
      · rw [if_neg hy]
        have hle := List.length_filter_le pred ys
        simp only [List.length_cons]
        omega

theorem stamp_key_mem (store : List (String × Nat)) (a : String) (now : Nat) :
    ∀ q ∈ stamp store a now, ∃ p ∈ store, q.1 = p.1 := by
  intro q hq
  unfold stamp at hq
  obtain ⟨p, hp, hpe⟩ := List.mem_map.mp hq
  by_cases hpa : p.1 = a
  · refine ⟨p, hp, ?_⟩
    rw [← hpe]
    simp [hpa]
  · refine ⟨p, hp, ?_⟩
    rw [← hpe]
    simp [hpa]

theorem stamp_length (store : List (String × Nat)) (a : String) (now : Nat) :
    (stamp store a now).length = store.length := List.length_map store _

theorem getProxyLoop_all_unreachable (reachable : String → Bool) (now : Nat) :
    ∀ fuel store, store.length ≤ fuel →
      (∀ p ∈ store, reachable p.1 = false) →
      getProxyLoop reachable now fuel store = GetResult.fellThrough [] := by
  intro fuel
  induction fuel with
  | zero =>
      intro store hlen hun
      have hnil : store = [] := List.eq_nil_of_length_eq_zero (by omega)
      subst hnil
      rfl
  | succ f ih =>
      intro store hlen hun
      cases hsel : selectLRU store with
      | none =>
          have hnil := selectLRU_eq_none store hsel
          subst hnil
          rfl
      | some p =>
          obtain ⟨a, t⟩ := p
          have hmem := selectLRU_mem store (a, t) hsel
          have hra : reachable a = false := hun (a, t) hmem
          unfold getProxyLoop
          rw [hsel]
          simp only [hra, Bool.false_eq_true, if_false]
          apply ih
          · have h1 : (a, now) ∈ stamp store a now := by
              unfold stamp
              exact List.mem_map.mpr ⟨(a, t), hmem, by simp⟩
            have h2 : ((stamp store a now).filter
                (fun p => p.1 ≠ a)).length < (stamp store a now).length :=
              length_filter_lt_of_mem_false _ (a, now) _ h1 (by simp)
            have h3 := stamp_length store a now
            unfold removeKey
            omega
          · intro q hq
            have hq2 : q ∈ stamp store a now := (List.mem_filter.mp hq).1
            obtain ⟨p2, hp2, hkey⟩ := stamp_key_mem store a now q hq2
            rw [hkey]
            exact hun p2 hp2

/-- Counterexample to claim C4 as stated: with pool A (timestamp 0) and
B (timestamp 5) and every address failing the probe, `Proxy.get` evicts both
and then the `while len(proxy_store) > 0` loop simply ends — the function
returns None normally (fellThrough with the emptied store). proxy.py defines
no ResourceExhausted error and `get` contains no raise statement, so
exhaustion does NOT fail with an error rather than returning normally. -/
theorem proxy_get_exhausted_counterexample :
    getProxy (fun _ => false) 9 [("A", 0), ("B", 5)]
      = GetResult.fellThrough [] := by decide

/-- Claim C4 (amended): when every tracked address fails the reachability
probe, `Proxy.get` evicts each failing address in turn and, once the pool is
exhausted, returns None normally with the pool emptied — it does not raise
any error (no ResourceExhausted exists in the code). -/
theorem proxy_get_exhausted_returns_none (reachable : String → Bool)
    (now : Nat) (store : List (String × Nat))
    (h : ∀ p ∈ store, reachable p.1 = false) :
    getProxy reachable now store = GetResult.fellThrough [] :=
  getProxyLoop_all_unreachable reachable now store.length store (le_refl _) h

/-- Witness for the amended C4 at the counterexample pool. -/
theorem proxy_get_exhausted_returns_none_witness :
    getProxy (fun _ => false) 11 [("A", 0), ("B", 5)]
      = GetResult.fellThrough [] :=
  proxy_get_exhausted_returns_none (fun _ => false) 11 [("A", 0), ("B", 5)]
    (by decide)

/-- The additions of `Proxy.refresh` (bot/proxy.py 97-99): every address in
the snapshot's set that is not already a key of the store (Python's
`proxy_set - set(proxy_store)`). `dedup` models the set's uniqueness; the
iteration order of a Python set is arbitrary, and no claim depends on it. -/
def refreshNewcomers (store : List (String × Nat)) (snapshot : List String) :
    List String :=
  snapshot.dedup.filter (fun a => !(store.any (fun p => p.1 == a)))

/-- `Proxy.refresh` (bot/proxy.py 76-104): add each new snapshot address with
last-used timestamp 0, then remove every key no longer in the snapshot.
The random shuffle of the snapshot only affects ordering, never membership
or timestamps. -/
def refreshStore (store : List (String × Nat)) (snapshot : List String) :
    List (String × Nat) :=
  (store ++ (refreshNewcomers store snapshot).map (fun a => (a, 0))).filter
    (fun p => snapshot.contains p.1)

theorem refreshStore_def (store : List (String × Nat)) (snapshot : List String) :
    refreshStore store snapshot
      = (store ++ (refreshNewcomers store snapshot).map (fun a => (a, 0))).filter
          (fun p => snapshot.contains p.1) := rfl

theorem refreshStore_key_mem (store : List (String × Nat))
    (snapshot : List String) :
    ∀ p ∈ refreshStore store snapshot, p.1 ∈ snapshot := by
  intro p hp
  have h2 := (List.mem_filter.mp hp).2
  exact List.elem_iff.mp h2

theorem refreshStore_new_zero (store : List (String × Nat))
    (snapshot : List String) :
    ∀ a ∈ snapshot, (∀ q ∈ store, q.1 ≠ a) → (a, 0) ∈ refreshStore store snapshot := by
  intro a ha hnew
  apply List.mem_filter.mpr
  constructor
  · apply List.mem_append.mpr
    right
    apply List.mem_map.mpr
    refine ⟨a, ?_, rfl⟩
    apply List.mem_filter.mpr
    refine ⟨List.mem_dedup.mpr ha, ?_⟩
    simp only [Bool.not_eq_eq_eq_not, Bool.not_true, List.any_eq_false]
    intro p hp
    simpa using hnew p hp
  · exact List.elem_iff.mpr ha

theorem refreshStore_keeps (store : List (String × Nat))
    (snapshot : List String) :
    ∀ p ∈ store, p.1 ∈ snapshot → p ∈ refreshStore store snapshot := by
  intro p hp hkey
  apply List.mem_filter.mpr
  exact ⟨List.mem_append.mpr (Or.inl hp), List.elem_iff.mpr hkey⟩

theorem refreshStore_covers (store : List (String × Nat))
    (snapshot : List String) :
    ∀ a ∈ snapshot, ∃ t, (a, t) ∈ refreshStore store snapshot := by
  intro a ha
  by_cases hin : ∃ q ∈ store, q.1 = a
  · obtain ⟨q, hq, hqa⟩ := hin
    refine ⟨q.2, ?_⟩
    have : q = (a, q.2) := by
      rw [← hqa]
    rw [← this]
    exact refreshStore_keeps store snapshot q hq (by rw [hqa]; exact ha)
  · push_neg at hin
    exact ⟨0, refreshStore_new_zero store snapshot a ha hin⟩

/-- Claim C7: `refresh` adds each snapshot address missing from the pool with
timestamp 0, removes each address absent from the snapshot, keeps every
retained pair (hence its timestamp) unchanged, and running it a second time
against an unchanged inventory (any reordering of the same address set, as
the source shuffles the list) returns the pool literally unchanged. -/
theorem proxy_refresh_reconcile (store : List (String × Nat))
    (snapshot snapshot2 : List String) :
    (∀ p ∈ refreshStore store snapshot, p.1 ∈ snapshot)
    ∧ (∀ a ∈ snapshot, (∀ q ∈ store, q.1 ≠ a) →
        (a, 0) ∈ refreshStore store snapshot)
    ∧ (∀ p ∈ store, p.1 ∈ snapshot → p ∈ refreshStore store snapshot)
    ∧ ((∀ x, x ∈ snapshot2 ↔ x ∈ snapshot) →
        refreshStore (refreshStore store snapshot) snapshot2
          = refreshStore store snapshot) := by
  refine ⟨refreshStore_key_mem store snapshot,
    refreshStore_new_zero store snapshot,
    refreshStore_keeps store snapshot, ?_⟩
  intro hsame
  have hnc : refreshNewcomers (refreshStore store snapshot) snapshot2 = [] := by
    apply List.filter_eq_nil_iff.mpr
    intro a ha
    have ha2 : a ∈ snapshot := (hsame a).mp (List.mem_dedup.mp ha)
    obtain ⟨t, hmem⟩ := refreshStore_covers store snapshot a ha2
    simp only [Bool.not_eq_eq_eq_not, Bool.not_true, Bool.not_eq_true,
      Bool.not_eq_false, List.any_eq_true]
    exact ⟨(a, t), hmem, by simp⟩
  rw [refreshStore_def (refreshStore store snapshot) snapshot2, hnc]
  simp only [List.map_nil, List.append_nil]
  apply List.filter_eq_self.mpr
  intro p hp
  have hkey := refreshStore_key_mem store snapshot p hp
  exact List.elem_iff.mpr ((hsame p.1).mpr hkey)

/-- Witness for C7: store [A:5, C:9], snapshot [A, B], second snapshot in
shuffled order [B, A]: A keeps timestamp 5, B enters at 0, C is dropped,
and the second refresh changes nothing. -/
theorem proxy_refresh_reconcile_witness :
    refreshStore [("A", 5), ("C", 9)] ["A", "B"] = [("A", 5), ("B", 0)]
    ∧ ((∀ p ∈ refreshStore [("A", 5), ("C", 9)] ["A", "B"],
          p.1 ∈ (["A", "B"] : List String))
      ∧ (∀ a ∈ (["A", "B"] : List String),
          (∀ q ∈ ([("A", 5), ("C", 9)] : List (String × Nat)), q.1 ≠ a) →
          (a, 0) ∈ refreshStore [("A", 5), ("C", 9)] ["A", "B"])
      ∧ (∀ p ∈ ([("A", 5), ("C", 9)] : List (String × Nat)),
          p.1 ∈ (["A", "B"] : List String) →
          p ∈ refreshStore [("A", 5), ("C", 9)] ["A", "B"])
      ∧ ((∀ x, x ∈ (["B", "A"] : List String) ↔ x ∈ (["A", "B"] : List String)) →
          refreshStore (refreshStore [("A", 5), ("C", 9)] ["A", "B"]) ["B", "A"]
            = refreshStore [("A", 5), ("C", 9)] ["A", "B"])) :=
  ⟨by decide, proxy_refresh_reconcile [("A", 5), ("C", 9)] ["A", "B"] ["B", "A"]⟩

/-- What one invocation of the wrapped coroutine does in `retry_async`:
return a value, raise an exception matched by the decorator's `exceptions`
tuple (retryable), or raise anything else (fatal). Error identities are Nat
tags. -/
inductive Outcome (A : Type)
  | ok : A → Outcome A
  | retryable : Nat → Outcome A
  | fatal : Nat → Outcome A
  deriving DecidableEq

/-- Observable result of a call to the `retry_async(...)`-wrapped function:
a returned value, the implicit Python None return when `range(max_attempts)`
is empty, a re-raised retryable error (final attempt), or a propagated
non-retryable error. -/
inductive RunResult (A : Type)
  | value : A → RunResult A
  | noneValue : RunResult A
  | raised : Nat → RunResult A
  | raisedFatal : Nat → RunResult A
  deriving DecidableEq

/-- The `for attempt in range(max_attempts)` loop of `retry_async`
(shamrock_seats_bot.py 57-77): try the call; on a retryable error either
sleep `delay` and set `delay *= backoff_factor` (when attempts remain) or
re-raise (final attempt). Returns the result, the number of invocations of
the wrapped function, and the list of sleeps performed, in order. -/
def retryLoop (behavior : Nat → Outcome Nat) (backoff : Nat) :
    Nat → Nat → Nat → RunResult Nat × Nat × List Nat
  | _, _, 0 => (RunResult.noneValue, 0, [])
  | attempt, delay, remaining + 1 =>
      match behavior attempt with
      | Outcome.ok a => (RunResult.value a, 1, [])
      | Outcome.fatal e => (RunResult.raisedFatal e, 1, [])
      | Outcome.retryable e =>
          match remaining with
          | 0 => (RunResult.raised e, 1, [])
          | r + 1 =>
              match retryLoop behavior backoff (attempt + 1) (delay * backoff)
                  (r + 1) with
              | (res, n, sleeps) => (res, n + 1, delay :: sleeps)

/-- A call to a function decorated with
`retry_async(exceptions, max_attempts, initial_delay, backoff_factor)`. -/
def retryRun (behavior : Nat → Outcome Nat) (maxAttempts delay backoff : Nat) :
    RunResult Nat × Nat × List Nat :=
  retryLoop behavior backoff 0 delay maxAttempts

/-- Claim C6: with max_attempts = 3, initial delay d and backoff factor b —
if every attempt raises a retryable error, the function is invoked exactly
3 times, the waits between attempts are [d, d*b] (that is d * b^(k-1) after
attempt k), and the last error is re-raised; a retryable failure followed by
a non-retryable error propagates the latter immediately after 2 invocations;
a non-retryable error on the first attempt propagates after 1 invocation with
no sleeps; a successful first attempt returns its value immediately. -/
theorem retry_async_behaviour (d b e0 e1 e2 em f fm a : Nat)
    (bR bF bM bS : Nat → Outcome Nat)
    (hR0 : bR 0 = Outcome.retryable e0) (hR1 : bR 1 = Outcome.retryable e1)
    (hR2 : bR 2 = Outcome.retryable e2)
    (hF0 : bF 0 = Outcome.fatal f)
    (hM0 : bM 0 = Outcome.retryable em) (hM1 : bM 1 = Outcome.fatal fm)
    (hS0 : bS 0 = Outcome.ok a) :
    retryRun bR 3 d b = (RunResult.raised e2, 3, [d, d * b])
    ∧ retryRun bF 3 d b = (RunResult.raisedFatal f, 1, [])
    ∧ retryRun bM 3 d b = (RunResult.raisedFatal fm, 2, [d])
    ∧ retryRun bS 3 d b = (RunResult.value a, 1, []) := by
  refine ⟨?_, ?_, ?_, ?_⟩
  · simp [retryRun, retryLoop, hR0, hR1, hR2]
  · simp [retryRun, retryLoop, hF0]
  · simp [retryRun, retryLoop, hM0, hM1]
  · simp [retryRun, retryLoop, hS0]

/-- Witness for C6 at concrete behaviours and d = 5, b = 2: sleeps [5, 10]
between the three failing attempts, and the other three scenarios. -/
theorem retry_async_behaviour_witness :
    retryRun (fun _ => Outcome.retryable 42) 3 5 2
      = (RunResult.raised 42, 3, [5, 5 * 2])
    ∧ retryRun (fun _ => Outcome.fatal 7) 3 5 2
      = (RunResult.raisedFatal 7, 1, [])
    ∧ retryRun (fun k => if k = 0 then Outcome.retryable 1 else Outcome.fatal 8)
        3 5 2 = (RunResult.raisedFatal 8, 2, [5])
    ∧ retryRun (fun _ => Outcome.ok 9) 3 5 2 = (RunResult.value 9, 1, []) :=
  retry_async_behaviour 5 2 42 42 42 1 7 8 9
    (fun _ => Outcome.retryable 42) (fun _ => Outcome.fatal 7)
    (fun k => if k = 0 then Outcome.retryable 1 else Outcome.fatal 8)
    (fun _ => Outcome.ok 9)
    rfl rfl rfl rfl rfl rfl rfl

/-- One invocation of the body of `open_driver_and_reserve`: the proxy string
passed to `create_webdriver(proxy)` and the identity of the webdriver object
it constructs (a fresh object per invocation, numbered by invocation index). -/
structure AttemptRecord where
  proxyUsed : String
  driverId : Nat
  deriving DecidableEq

/-- Trace of a call to `open_driver_and_reserve(proxy, ...)`, which is
decorated with `retry_async(ryanair_errors, max_attempts=3, initial_delay=1,
backoff_factor=1)`. The decorator re-invokes the body with the same bound
arguments, so every invocation k runs `create_webdriver(proxy)` with the
proxy fixed at call time, creating webdriver number k. `behavior` gives each
attempt's outcome (the Ryanair call raising or succeeding). -/
def openDriverAndReserveTrace (proxy : String) (behavior : Nat → Outcome Nat) :
    List AttemptRecord :=
  match retryRun behavior 3 1 1 with
  | (_, n, _) => (List.range n).map (fun k => AttemptRecord.mk proxy k)

/-- Counterexample to claim C5 as stated: when every attempt fails with a
retryable error, the three invocations of `open_driver_and_reserve` all pass
the same proxy p1 to `create_webdriver` — the retry attempts reuse the proxy
of the failed attempt instead of obtaining a new proxy address, so the
proxies used per attempt are not pairwise distinct. -/
theorem retry_reuses_proxy_counterexample :
    (openDriverAndReserveTrace "p1" (fun _ => Outcome.retryable 0)).map
        (fun r => r.proxyUsed) = ["p1", "p1", "p1"]
    ∧ ¬ ((openDriverAndReserveTrace "p1" (fun _ => Outcome.retryable 0)).map
        (fun r => r.proxyUsed)).Pairwise (fun x y => x ≠ y) := by
  refine ⟨by decide, by decide⟩

theorem openDriverAndReserveTrace_eq (proxy : String)
    (behavior : Nat → Outcome Nat) :
    openDriverAndReserveTrace proxy behavior
      = (List.range (retryRun behavior 3 1 1).2.1).map
          (fun k => AttemptRecord.mk proxy k) := rfl

/-- Claim C5 (amended): every retry attempt opens a new booking session — a
fresh webdriver (and Ryanair instance) is created on each invocation, so the
driver identities are strictly increasing and pairwise distinct — but every
attempt, retries included, uses the same proxy address passed to
`open_driver_and_reserve`; no retry obtains a new proxy. -/
theorem retry_new_session_same_proxy (proxy : String)
    (behavior : Nat → Outcome Nat) :
    (∀ r ∈ openDriverAndReserveTrace proxy behavior, r.proxyUsed = proxy)
    ∧ ((openDriverAndReserveTrace proxy behavior).map
        (fun r => r.driverId)).Pairwise (fun i j => i < j) := by
  rw [openDriverAndReserveTrace_eq]
  constructor
  · intro r hr
    obtain ⟨k, _, hk⟩ := List.mem_map.mp hr
    rw [← hk]
  · have hcomp : (List.range (retryRun behavior 3 1 1).2.1).map
        ((fun r => r.driverId) ∘ (fun k => AttemptRecord.mk proxy k))
        = List.range (retryRun behavior 3 1 1).2.1 :=
      List.map_id _
    rw [List.map_map, hcomp]
    exact List.pairwise_lt_range _

/-- Witness for the amended C5 with all three attempts failing retryably:
proxies used are all p1, driver ids 0 < 1 < 2 pairwise distinct. -/
theorem retry_new_session_same_proxy_witness :
    (∀ r ∈ openDriverAndReserveTrace "p1" (fun _ => Outcome.retryable 3),
      r.proxyUsed = "p1")
    ∧ ((openDriverAndReserveTrace "p1" (fun _ => Outcome.retryable 3)).map
        (fun r => r.driverId)).Pairwise (fun i j => i < j) :=
  retry_new_session_same_proxy "p1" (fun _ => Outcome.retryable 3)

/-- `Ryanair.__find_max_tickets_available` (ryanair.py 220-237): starting
from the current passenger count (initialised to 7 in `__init__`), open the
search page for that count; with no flight card return None; if the flight is
sold out decrement and retry; otherwise return the flight card (modelled as
the successful count). `found n` / `soldOut n` give the page outcome when
searching with n passengers. -/
def findMaxTickets (found soldOut : Nat → Bool) : Nat → Option Nat
  | 0 => none
  | n + 1 =>
      if !(found (n + 1)) then none
      else if soldOut (n + 1) then findMaxTickets found soldOut n
      else some (n + 1)

/-- The fixed probe ceiling: `self.__num_passengers = 7` in `Ryanair.__init__`. -/
def quotaCeiling : Nat := 7

/-- `Ryanair.get_number_of_tickets_available` (ryanair.py 473-487): raises
SeatsNotAvailableError (the `error` case) when no flight card came back from
the probe, else returns the discovered count. -/
def getNumberOfTicketsAvailable (found soldOut : Nat → Bool) : Except Unit Nat :=
  match findMaxTickets found soldOut quotaCeiling with
  | none => Except.error ()
  | some n => Except.ok n

/-- Outcome of one `start_reservation` round (shamrock_seats_bot.py 365-439):
the probe raised and was caught, ending the round with no batches; or an
AttributeError was raised looking up a missing attribute (uncaught — the
except clauses only catch Ryanair errors); or batch tasks were launched. -/
inductive RoundOutcome
  | probeFailed : RoundOutcome
  | attributeError : String → RoundOutcome
  | launched : List (List String) → RoundOutcome
  deriving DecidableEq

/-- The attributes defined on the Proxy class (bot/proxy.py 10-143): Python
resolves `proxies.<name>` against exactly these method names, raising
AttributeError otherwise. -/
def proxyMethods : List String :=
  ["__init__", "get_public_ip", "get_ip_authorization",
   "delete_ip_authorization", "authorize_ip", "refresh",
   "_can_access_ryanair", "get"]

/-- Control flow of `start_reservation` after seat selection: probe the
quota (round ends on a caught Ryanair error), then evaluate
`proxies.get_proxy_list()` — an attribute lookup on the Proxy instance —
before building batch sessions from the work queue. -/
def startReservationRun (found soldOut : Nat → Bool)
    (available selected : List String) : RoundOutcome :=
  match getNumberOfTicketsAvailable found soldOut with
  | Except.error _ => RoundOutcome.probeFailed
  | Except.ok q =>
      if proxyMethods.contains "get_proxy_list" then
        RoundOutcome.launched (startReservationBatches (workQueue available selected) q)
      else RoundOutcome.attributeError "get_proxy_list"

/-- Claim C8: when every candidate passenger count from the ceiling 7 down
to 1 finds the flight sold out, the probe reports no capacity
(`__find_max_tickets_available` returns None), `get_number_of_tickets_available`
raises SeatsNotAvailableError, and the round ends immediately with no batches
created and no batch sessions opened. -/
theorem probe_no_capacity_round_fails (found soldOut : Nat → Bool)
    (available selected : List String)
    (h : ∀ n, 1 ≤ n → n ≤ quotaCeiling → found n = true ∧ soldOut n = true) :
    findMaxTickets found soldOut quotaCeiling = none
    ∧ getNumberOfTicketsAvailable found soldOut = Except.error ()
    ∧ startReservationRun found soldOut available selected
        = RoundOutcome.probeFailed := by
  have h1 := h 1 (by decide) (by decide)
  have h2 := h 2 (by decide) (by decide)
  have h3 := h 3 (by decide) (by decide)
  have h4 := h 4 (by decide) (by decide)
  have h5 := h 5 (by decide) (by decide)
  have h6 := h 6 (by decide) (by decide)
  have h7 := h 7 (by decide) (by decide)
  have hfind : findMaxTickets found soldOut quotaCeiling = none := by
    show findMaxTickets found soldOut 7 = none
    unfold findMaxTickets
    rw [h7.1, h7.2]
    unfold findMaxTickets
    rw [h6.1, h6.2]
    unfold findMaxTickets
    rw [h5.1, h5.2]
    unfold findMaxTickets
    rw [h4.1, h4.2]
    unfold findMaxTickets
    rw [h3.1, h3.2]
    unfold findMaxTickets
    rw [h2.1, h2.2]
    unfold findMaxTickets
    rw [h1.1, h1.2]
    rfl
  refine ⟨hfind, ?_, ?_⟩
  · unfold getNumberOfTicketsAvailable
    rw [hfind]
  · unfold startReservationRun getNumberOfTicketsAvailable
    rw [hfind]

/-- Witness for C8: a flight sold out at every candidate count. -/
theorem probe_no_capacity_round_fails_witness :
    findMaxTickets (fun _ => true) (fun _ => true) quotaCeiling = none
    ∧ getNumberOfTicketsAvailable (fun _ => true) (fun _ => true)
        = Except.error ()
    ∧ startReservationRun (fun _ => true) (fun _ => true) ["01A", "01B"] ["01A"]
        = RoundOutcome.probeFailed :=
  probe_no_capacity_round_fails (fun _ => true) (fun _ => true)
    ["01A", "01B"] ["01A"] (fun n _ _ => ⟨rfl, rfl⟩)

/-- Claim C9: the Proxy class defines no `get_proxy_list` method, so every
reservation round that survives the quota probe and reaches the batching
phase fails with AttributeError at `proxies.get_proxy_list()` before any
batch session is launched; no per-batch proxy acquisition ever runs. -/
theorem get_proxy_list_attribute_error (found soldOut : Nat → Bool)
    (available selected : List String) (q : Nat)
    (h : getNumberOfTicketsAvailable found soldOut = Except.ok q) :
    proxyMethods.contains "get_proxy_list" = false
    ∧ startReservationRun found soldOut available selected
        = RoundOutcome.attributeError "get_proxy_list"
    ∧ (∀ batches, startReservationRun found soldOut available selected
        ≠ RoundOutcome.launched batches) := by
  have hmiss : proxyMethods.contains "get_proxy_list" = false := by decide
  have hrun : startReservationRun found soldOut available selected
      = RoundOutcome.attributeError "get_proxy_list" := by
    unfold startReservationRun
    rw [h, hmiss]
    rfl
  refine ⟨hmiss, hrun, ?_⟩
  intro batches
  rw [hrun]
  intro hcontra
  exact RoundOutcome.noConfusion hcontra

/-- Witness for C9: a flight with capacity at the ceiling (7 tickets); the
round reaches batching and dies on the missing attribute. -/
theorem get_proxy_list_attribute_error_witness :
    proxyMethods.contains "get_proxy_list" = false
    ∧ startReservationRun (fun _ => true) (fun _ => false) ["01A", "01B"] ["01A"]
        = RoundOutcome.attributeError "get_proxy_list"
    ∧ (∀ batches, startReservationRun (fun _ => true) (fun _ => false)
        ["01A", "01B"] ["01A"] ≠ RoundOutcome.launched batches) :=
  get_proxy_list_attribute_error (fun _ => true) (fun _ => false)
    ["01A", "01B"] ["01A"] 7 rfl
